import Mathlib

/-!
Verification of the `pail` GridFS legacy bucket (gridfsLegacyBucket) found in
this repository, as a shallow embedding in Lean 4.

Go strings are modelled as lists of characters (`Str`), Go slicing with its
panic-on-out-of-range behaviour as an `Option`-valued operation, the GridFS
backend as an explicit list of stored files, the mgo cursor as a list of
matched documents plus an optional backend fault, and contexts as a boolean
recording whether `ctx.Err()` is non-nil at the relevant program point.

Helpers of the pail package that are referenced by the bucket code but whose
source is not part of this repository snapshot (consistentJoin, md5sum, the
error catcher, mockWriteCloser, the delete-on-sync helpers) are modelled from
the specification; each such definition carries a doc comment saying so.
-/

set_option autoImplicit false

namespace Pail

/-- Go strings, modelled as lists of characters (one character per byte). -/
abbrev Str := List Char

/-- Go slicing `s[i:]`: defined when `i ≤ len(s)` and a panic otherwise,
modelled as `none` on the panic branch. -/
def goDropFrom? (s : Str) (i : Nat) : Option Str :=
  if i ≤ s.length then some (s.drop i) else none

/-- Modelled from the spec: `consistentJoin` (pail's join helper, not under
`src/`) joins prefix and key with a single separator; an empty prefix
contributes no separator, so no duplicate separator is ever introduced and
`denormalize(normalize(k)) == k` can hold as the spec demands. -/
def consistentJoin (p k : Str) : Str :=
  if p = [] then k else p ++ ('/' :: k)

/-- Bucket options of `gridfsLegacyBucket` (GridFSOptions).  The source field
`Prefix` is called `Pfx` here.  The connection information is irrelevant to
the verified behaviour and omitted. -/
structure GridFSOptions where
  Name : Str
  Pfx : Str
  DryRun : Bool
  DeleteOnPush : Bool
  DeleteOnPull : Bool
  DeleteOnSync : Bool
  Verbose : Bool
  deriving DecidableEq

/-- `gridfsLegacyBucket.normalizeKey` (src/units/stats_amboy.go:115-120). -/
def normalizeKey (b : GridFSOptions) (key : Str) : Str :=
  if key = [] then b.Pfx else consistentJoin b.Pfx key

/-- `gridfsLegacyBucket.denormalizeKey` (src/units/stats_amboy.go:122-127):
strips the first `len(prefix)+1` characters whenever the prefix is non-empty
and the path is long enough; it never checks that the prefix is actually
present. -/
def denormalizeKey (b : GridFSOptions) (key : Str) : Str :=
  if b.Pfx ≠ [] ∧ key.length > b.Pfx.length + 1 then
    key.drop (b.Pfx.length + 1)
  else
    key

/-- A stored GridFS file: its backend name, its content and the checksum the
backend reports for it (possibly empty when the backend left it
unpopulated). -/
structure GridFile where
  name : Str
  content : Str
  md5 : Str
  deriving DecidableEq

/-- Concrete options used by the counterexamples below. -/
def optsA : GridFSOptions :=
  { Name := [], Pfx := ['a'], DryRun := false, DeleteOnPush := false,
    DeleteOnPull := false, DeleteOnSync := false, Verbose := false }

/-- C1: key codec round-trip: for every non-empty logical key `k`,
`denormalizeKey (normalizeKey k) = k`, and `normalizeKey ""` returns the
configured prefix verbatim. -/
theorem C1_codec_roundtrip (b : GridFSOptions) (k : Str) (hk : k ≠ []) :
    denormalizeKey b (normalizeKey b k) = k ∧ normalizeKey b [] = b.Pfx := by
  refine ⟨?_, by simp [normalizeKey]⟩
  unfold normalizeKey consistentJoin denormalizeKey
  by_cases hp : b.Pfx = []
  · simp [hp, hk]
  · rw [if_neg hk, if_neg hp, if_pos]
    · have : b.Pfx ++ ('/' :: k) = (b.Pfx ++ ['/']) ++ k := by simp
      rw [this, List.drop_left']
      simp
    · refine ⟨hp, ?_⟩
      simp only [List.length_append, List.length_cons]
      have : 0 < k.length := List.length_pos.mpr hk
      omega

/-- Witness for C1 at a concrete input. -/
theorem C1_codec_roundtrip_witness :
    denormalizeKey optsA (normalizeKey optsA ['b', 'c']) = ['b', 'c'] ∧
      normalizeKey optsA [] = optsA.Pfx :=
  C1_codec_roundtrip optsA ['b', 'c'] (by decide)

/-- C5 counterexample: with prefix `"a"`, the backend path `"xyz"` does not
begin with `"a/"`, yet `denormalizeKey` still strips its first two characters
and returns `"z"` instead of returning it unchanged as the claim states. -/
theorem C5_denormalize_cex :
    (['a', '/'] : Str).isPrefixOf ['x', 'y', 'z'] = false ∧
      denormalizeKey optsA ['x', 'y', 'z'] = ['z'] ∧
      denormalizeKey optsA ['x', 'y', 'z'] ≠ ['x', 'y', 'z'] := by
  decide

/-- C5 (amended): `denormalizeKey` strips the first `len(prefix)+1`
characters from any path longer than `len(prefix)+1` whenever the prefix is
non-empty — checking only the length, never that the prefix is present; a
path of length at most `len(prefix)+1` is returned unchanged; in particular a
path that does begin with `prefix ++ "/"` and a non-empty remainder is mapped
to that remainder. -/
theorem C5_denormalize_length_only (b : GridFSOptions) (path rest : Str)
    (hp : b.Pfx ≠ []) :
    (path.length > b.Pfx.length + 1 →
      denormalizeKey b path = path.drop (b.Pfx.length + 1)) ∧
    (path.length ≤ b.Pfx.length + 1 → denormalizeKey b path = path) ∧
    (rest ≠ [] → denormalizeKey b (b.Pfx ++ ('/' :: rest)) = rest) := by
  refine ⟨fun hlong => ?_, fun hshort => ?_, fun hr => ?_⟩
  · rw [denormalizeKey, if_pos ⟨hp, hlong⟩]
  · rw [denormalizeKey, if_neg]
    intro hcontra
    omega
  · rw [denormalizeKey, if_pos]
    · have : b.Pfx ++ ('/' :: rest) = (b.Pfx ++ ['/']) ++ rest := by simp
      rw [this, List.drop_left']
      simp
    · refine ⟨hp, ?_⟩
      simp only [List.length_append, List.length_cons]
      have : 0 < rest.length := List.length_pos.mpr hr
      omega

/-- Witness for C5's amended theorem at concrete inputs. -/
theorem C5_denormalize_length_only_witness :
    ((['x', 'y', 'z'] : Str).length > optsA.Pfx.length + 1 →
      denormalizeKey optsA ['x', 'y', 'z'] =
        (['x', 'y', 'z'] : Str).drop (optsA.Pfx.length + 1)) ∧
    ((['x', 'y', 'z'] : Str).length ≤ optsA.Pfx.length + 1 →
      denormalizeKey optsA ['x', 'y', 'z'] = ['x', 'y', 'z']) ∧
    ((['q'] : Str) ≠ [] →
      denormalizeKey optsA (optsA.Pfx ++ ('/' :: ['q'])) = ['q']) :=
  C5_denormalize_length_only optsA ['x', 'y', 'z'] ['q'] (by decide)

/-- The GridFS backend state: the stored files, the set of normalized names
whose backend removal faults (a fault-injection device standing for database
errors), and an optional cursor fault the underlying mgo iterator ends with. -/
structure BackendState where
  files : List GridFile
  failRemove : List Str
  iterFault : Option Str
  deriving DecidableEq

/-- Characters that are metacharacters of the regular-expression dialect the
backend evaluates; the pattern `List` builds interpolates the normalized
prefix without escaping them. -/
def regexMetaChar (c : Char) : Bool :=
  c ∈ (['.', '*', '+', '?', '(', ')', '[', ']', '|', '^', '$'] : List Char) ||
    c = Char.ofNat 92 || c = Char.ofNat 123 || c = Char.ofNat 125

/-- Matching of the anchored pattern `^p.*` against a name, for patterns `p`
whose characters are literals or the dot wildcard: each pattern character
must match the corresponding name character ('.' matches any), and the
trailing `.*` consumes the rest.  This interprets the query
`bson.RegEx{Pattern: "^" + p + ".*"}` of `List` (src lines 588-592) on the
fragment without other metacharacters. -/
def reMatchesPfx : Str → Str → Bool
  | [], _ => true
  | _ :: _, [] => false
  | c :: p, x :: xs => (c = '.' || c = x) && reMatchesPfx p xs

/-- The set of stored files the query built by `List` (src lines 580-592)
matches: everything when the requested prefix is empty, the anchored-regex
matches of the normalized prefix otherwise. -/
def queryFiles (b : GridFSOptions) (files : List GridFile) (pfxQuery : Str) :
    List GridFile :=
  if pfxQuery = [] then files
  else files.filter fun f => reMatchesPfx (normalizeKey b pfxQuery) f.name

/-- The underlying mgo cursor: the matched documents still to be yielded and
the fault, if any, the backend iteration ends with (what `iter.Err()` of the
driver reports). -/
structure MgoIter where
  files : List GridFile
  fault : Option Str
  deriving DecidableEq

/-- `bucketItemImpl` as built by `Next` (src lines 622-626): the bucket field
is set to the bucket's prefix and the key to the denormalized file name. -/
structure BucketItem where
  bucket : Str
  key : Str
  deriving DecidableEq

/-- `legacyGridFSIterator` (src lines 595-601): the creation context (as a
boolean saying whether it is canceled), the never-assigned `err` field, the
current item, the underlying cursor and the owning bucket's options. -/
structure LegacyGridFSIterator where
  ctxCanceled : Bool
  err : Option Str
  item : Option BucketItem
  iter : MgoIter
  opts : GridFSOptions
  deriving DecidableEq

/-- `legacyGridFSIterator.Err` (src line 603): returns the `err` field —
which no code path ever assigns. -/
def LegacyGridFSIterator.Err (it : LegacyGridFSIterator) : Option Str :=
  it.err

/-- `legacyGridFSIterator.Next` (src lines 606-629): false when the creation
context or the per-call context is done or the cursor is exhausted; otherwise
it stores the next item (with denormalized key) and returns true. -/
def iterNext (it : LegacyGridFSIterator) (callCtxCanceled : Bool) :
    Bool × LegacyGridFSIterator :=
  if it.ctxCanceled then (false, it)
  else if callCtxCanceled then (false, it)
  else
    match it.iter.files with
    | [] => (false, it)
    | f :: rest =>
      (true,
        { it with
          item := some { bucket := it.opts.Pfx, key := denormalizeKey it.opts f.name }
          iter := { it.iter with files := rest } })

/-- Run `Next` (with a live per-call context) `n` times, collecting the
returned booleans and the final iterator state. -/
def iterRun : LegacyGridFSIterator → Nat → List Bool × LegacyGridFSIterator
  | it, 0 => ([], it)
  | it, n + 1 =>
    let step := iterNext it false
    let rest := iterRun step.2 n
    (step.1 :: rest.1, rest.2)

/-- The outcome of `List` (src lines 567-593): either an iterator or an
error, together with the number of backend queries issued. -/
structure ListOutcome where
  iter : Option LegacyGridFSIterator
  err : Option Str
  queries : Nat
  deriving DecidableEq

/-- `gridfsLegacyBucket.List` (src lines 567-593): fails before building any
query when the context is already canceled; otherwise issues the find-all or
anchored-prefix query and wraps the cursor in an iterator whose `err` field
starts out nil. -/
def list (b : GridFSOptions) (st : BackendState) (ctxCanceled : Bool)
    (pfxQuery : Str) : ListOutcome :=
  if ctxCanceled then
    { iter := none, err := some ("operation canceled".data), queries := 0 }
  else
    { iter := some
        { ctxCanceled := ctxCanceled, err := none, item := none,
          iter := { files := queryFiles b st.files pfxQuery, fault := st.iterFault },
          opts := b }
      err := none
      queries := 1 }

/-- C9: calling `List` with an already-canceled context returns a non-nil
error, produces no iterator, and issues no backend query. -/
theorem C9_list_canceled_ctx (b : GridFSOptions) (st : BackendState)
    (q : Str) :
    (list b st true q).err = some ("operation canceled".data) ∧
      (list b st true q).iter = none ∧ (list b st true q).queries = 0 := by
  refine ⟨?_, ?_, ?_⟩ <;> simp [list]

/-- Literal prefix matching coincides with the anchored-regex matching for
patterns without the dot wildcard. -/
theorem reMatchesPfx_eq_isPrefixOf (p s : Str) (hp : ∀ c ∈ p, ¬c = '.') :
    reMatchesPfx p s = p.isPrefixOf s := by
  induction p generalizing s with
  | nil => cases s <;> simp [reMatchesPfx, List.isPrefixOf]
  | cons c p ih =>
    cases s with
    | nil => simp [reMatchesPfx, List.isPrefixOf]
    | cons x xs =>
      have hc : ¬c = '.' := hp c (by simp)
      have hrest : ∀ c2 ∈ p, ¬c2 = '.' := fun c2 hc2 => hp c2 (by simp [hc2])
      simp [reMatchesPfx, List.isPrefixOf, ih xs hrest, hc, Bool.beq_eq_decide_eq]

/-- Concrete objects for the C2 counterexample. -/
def fileAxc : GridFile := { name := "axc1".data, content := [], md5 := [] }

/-- Concrete options (empty prefix) for the C2 counterexample. -/
def optsNoPfx : GridFSOptions :=
  { Name := [], Pfx := [], DryRun := false, DeleteOnPush := false,
    DeleteOnPull := false, DeleteOnSync := false, Verbose := false }

/-- Concrete backend state for the C2 counterexample. -/
def stAxc : BackendState :=
  { files := [fileAxc], failRemove := [], iterFault := none }

/-- The concrete iterator `List` produces for `stAxc` and a live context. -/
def itAxc : LegacyGridFSIterator :=
  { ctxCanceled := false, err := none, item := none,
    iter := { files := [fileAxc], fault := none }, opts := optsNoPfx }

/-- C2 counterexample: the prefix `"a.c"` is interpolated into the query
regex unescaped, so the iterator returned by `List` matches the stored name
`"axc1"` even though `"axc1"` does not start with the normalized prefix
`"a.c"` literally — prefix matching is not a literal string-prefix test for
every prefix. -/
theorem C2_list_literal_prefix_cex :
    (list optsNoPfx stAxc false ("a.c".data)).iter = some itAxc ∧
      (normalizeKey optsNoPfx ("a.c".data)).isPrefixOf fileAxc.name = false := by
  constructor
  · decide
  · decide

/-- C2 (amended): for every prefix whose normalized form contains no
regular-expression metacharacter, the iterator returned by `List` matches
exactly the stored objects whose backend name starts with the normalized
prefix as a literal string-prefix test, and when the prefix is empty it
matches every object in the bucket. -/
theorem C2_list_anchored_regex (b : GridFSOptions) (st : BackendState)
    (q : Str) (it : LegacyGridFSIterator)
    (hplain : (normalizeKey b q).all (fun c => !regexMetaChar c) = true)
    (hit : (list b st false q).iter = some it) :
    it.iter.files =
      if q = [] then st.files
      else st.files.filter fun f => (normalizeKey b q).isPrefixOf f.name := by
  have hdot : ∀ c ∈ normalizeKey b q, ¬c = '.' := by
    intro c hc
    have := (List.all_eq_true.mp hplain) c hc
    intro hcdot
    rw [hcdot] at this
    simp [regexMetaChar] at this
  simp only [list, Bool.false_eq_true, if_false, Option.some.injEq] at hit
  rw [← hit]
  by_cases hq : q = []
  · simp [queryFiles, hq]
  · simp only [queryFiles, if_neg hq]
    refine List.filter_congr fun f _ => ?_
    exact reMatchesPfx_eq_isPrefixOf (normalizeKey b q) f.name hdot

/-- Witness for C2's amended theorem at a concrete input. -/
theorem C2_list_anchored_regex_witness :
    itAxc.iter.files =
      if ("ax".data : Str) = [] then stAxc.files
      else stAxc.files.filter fun f =>
        (normalizeKey optsNoPfx ("ax".data)).isPrefixOf f.name :=
  C2_list_anchored_regex optsNoPfx stAxc ("ax".data) itAxc
    (by decide) (by decide)

/-- Clean-run behaviour of the wrapper iterator: starting from a live
creation context and a nil `err` field, the first `N` calls to `Next` return
true, the following call returns false, and the `err` field is still nil —
whatever fault the underlying cursor carries. -/
theorem iterRun_clean (fs : List GridFile) (fault : Option Str)
    (b : GridFSOptions) (item : Option BucketItem) :
    (iterRun ⟨false, none, item, ⟨fs, fault⟩, b⟩ (fs.length + 1)).1 =
        List.replicate fs.length true ++ [false] ∧
      (iterRun ⟨false, none, item, ⟨fs, fault⟩, b⟩ (fs.length + 1)).2.err =
        none := by
  induction fs generalizing item with
  | nil => simp [iterRun, iterNext]
  | cons f rest ih =>
    have step :
        iterNext ⟨false, none, item, ⟨f :: rest, fault⟩, b⟩ false =
          (true, ⟨false, none,
            some { bucket := b.Pfx, key := denormalizeKey b f.name },
            ⟨rest, fault⟩, b⟩) := by
      simp [iterNext]
    have ihx := ih (some { bucket := b.Pfx, key := denormalizeKey b f.name })
    constructor
    · show (iterRun _ (rest.length + 1 + 1)).1 = _
      rw [iterRun, step]
      simp only [List.length_cons, List.replicate_succ, List.cons_append]
      exact congrArg (true :: ·) ihx.1
    · show (iterRun _ (rest.length + 1 + 1)).2.err = none
      rw [iterRun, step]
      exact ihx.2

/-- C4 (amended): for the `N` objects matched by a `List` query, exactly `N`
`Next` calls return true, the `(N+1)`th returns false, and `Err()` is nil
afterward — and `Err()` is nil in every case, also when iteration stopped
because of a backend iteration fault, because no code path ever assigns the
iterator's `err` field. -/
theorem C4_iterator_exhaustion (b : GridFSOptions) (st : BackendState)
    (q : Str) (it : LegacyGridFSIterator)
    (hit : (list b st false q).iter = some it) :
    (iterRun it ((queryFiles b st.files q).length + 1)).1 =
        List.replicate (queryFiles b st.files q).length true ++ [false] ∧
      LegacyGridFSIterator.Err
        (iterRun it ((queryFiles b st.files q).length + 1)).2 = none := by
  simp only [list, Bool.false_eq_true, if_false, Option.some.injEq] at hit
  rw [← hit]
  exact iterRun_clean (queryFiles b st.files q) st.iterFault b none

/-- Witness for C4's amended theorem at a concrete input. -/
theorem C4_iterator_exhaustion_witness :
    (iterRun itAxc ((queryFiles optsNoPfx stAxc.files []).length + 1)).1 =
        List.replicate (queryFiles optsNoPfx stAxc.files []).length true ++
          [false] ∧
      LegacyGridFSIterator.Err
        (iterRun itAxc
          ((queryFiles optsNoPfx stAxc.files []).length + 1)).2 = none :=
  C4_iterator_exhaustion optsNoPfx stAxc [] itAxc (by decide)

/-- A backend state whose cursor ends with an iteration fault. -/
def stFault : BackendState :=
  { files := [], failRemove := [], iterFault := some ("cursor error".data) }

/-- The iterator `List` returns over `stFault`. -/
def itFault : LegacyGridFSIterator :=
  { ctxCanceled := false, err := none, item := none,
    iter := { files := [], fault := some ("cursor error".data) },
    opts := optsNoPfx }

/-- C4 counterexample: iteration stops (Next returns false) while the
underlying backend cursor carries a fault, yet `Err()` returns nil, not that
fault — the wrapper never records backend iteration faults. -/
theorem C4_iterator_err_cex :
    (list optsNoPfx stFault false []).iter = some itFault ∧
      (iterNext itFault false).1 = false ∧
      itFault.iter.fault = some ("cursor error".data) ∧
      LegacyGridFSIterator.Err itFault = none := by
  refine ⟨by decide, by decide, by decide, by decide⟩

/-- Modelled from the spec: the mock write closer is a no-op writable sink
that discards all bytes and reports success (a nil error) on close. -/
def mockWriteCloserClose : Option Str := none

/-- The effect of `gridfs.Create` followed by writing `content` and closing:
GridFS keeps one document per upload and `Open` returns the most recently
uploaded file with a name, so creation prepends. -/
def gridfsCreate (files : List GridFile) (name content : Str)
    (hash : Str → Str) : List GridFile :=
  { name := name, content := content, md5 := hash content } :: files

/-- `gridfs.Open`: the most recently uploaded file stored under `n`, if
any (`mgo.ErrNotFound` otherwise, modelled as `none`). -/
def gridfsOpen : List GridFile → Str → Option GridFile
  | [], _ => none
  | f :: fs, n => if f.name = n then some f else gridfsOpen fs n

/-- `gridfs.Remove`: removes every file stored under `n`. -/
def gridfsRemoveAll : List GridFile → Str → List GridFile
  | [], _ => []
  | f :: fs, n =>
    if f.name = n then gridfsRemoveAll fs n else f :: gridfsRemoveAll fs n

/-- `gridfsLegacyBucket.Put` (src lines 255-282) on the model state: under
dry-run the writer is the mock sink, the copied bytes are discarded, its
close succeeds and the backend is untouched; otherwise the content is
written to a new file at the normalized key.  Session-level failures of
`openFile` are not modelled. -/
def put (b : GridFSOptions) (hash : Str → Str) (st : BackendState)
    (key content : Str) : Option Str × BackendState :=
  if b.DryRun then (mockWriteCloserClose, st)
  else
    (none,
      { st with files := gridfsCreate st.files (normalizeKey b key) content hash })

/-- Outcome of a `Remove` call: the returned error, the resulting backend
state, and whether the backend was contacted at all. -/
structure RemoveOut where
  err : Option Str
  st : BackendState
  contacted : Bool
  deriving DecidableEq

/-- `gridfsLegacyBucket.Remove` (src lines 508-522): returns nil before any
backend contact under dry-run; otherwise removes the files under the
normalized key, failing exactly when the backend faults that removal. -/
def remove (b : GridFSOptions) (st : BackendState) (key : Str) : RemoveOut :=
  if b.DryRun then { err := none, st := st, contacted := false }
  else if normalizeKey b key ∈ st.failRemove then
    { err := some ("problem removing file".data), st := st, contacted := true }
  else
    { err := none,
      st := { st with files := gridfsRemoveAll st.files (normalizeKey b key) },
      contacted := true }

/-- `gridfsLegacyBucket.RemoveMany` (src lines 524-539): attempts every key
in order, adds each failure to the catcher, and returns the collected errors
together with the final backend state. -/
def removeMany (b : GridFSOptions) : BackendState → List Str →
    List Str × BackendState
  | st, [] => ([], st)
  | st, k :: ks =>
    let out := remove b st k
    let rest := removeMany b out.st ks
    ((match out.err with
      | some e => e :: rest.1
      | none => rest.1),
      rest.2)

/-- Modelled from the spec: the error catcher accumulates one error per
failed operation and resolves to nil exactly when nothing failed. -/
def catcherResolve (errs : List Str) : Option (List Str) :=
  if errs = [] then none else some errs

/-- Whether the removal of `key` fails against the given set of faulted
normalized names: only a non-dry-run removal of a faulted name does. -/
def removeFails (b : GridFSOptions) (fails : List Str) (key : Str) : Bool :=
  !b.DryRun && decide (normalizeKey b key ∈ fails)

/-- No stored file carries the name `n`. -/
def noFileNamed : List GridFile → Str → Bool
  | [], _ => true
  | f :: fs, n => !(decide (f.name = n)) && noFileNamed fs n

/-- C6: with dry-run enabled, Put, Remove and RemoveMany return success and
leave the backend state byte-for-byte unchanged; Put's sink discards the
bytes and succeeds on close, and Remove returns before any backend
contact. -/
theorem C6_dryrun_noop (b : GridFSOptions) (hash : Str → Str)
    (st : BackendState) (key content : Str) (keys : List Str)
    (hd : b.DryRun = true) :
    put b hash st key content = (none, st) ∧
      remove b st key = { err := none, st := st, contacted := false } ∧
      removeMany b st keys = ([], st) ∧
      catcherResolve (removeMany b st keys).1 = none := by
  have h1 : put b hash st key content = (none, st) := by
    simp [put, hd, mockWriteCloserClose]
  have h2 : remove b st key = { err := none, st := st, contacted := false } := by
    simp [remove, hd]
  have h3 : removeMany b st keys = ([], st) := by
    induction keys with
    | nil => simp [removeMany]
    | cons k ks ih => simp [removeMany, remove, hd, ih]
  exact ⟨h1, h2, h3, by rw [h3] ; simp [catcherResolve]⟩

/-- Witness for C6 at a concrete input. -/
theorem C6_dryrun_noop_witness :
    put { optsNoPfx with DryRun := true } (fun c => c) stAxc ['k'] ['v'] =
        (none, stAxc) ∧
      remove { optsNoPfx with DryRun := true } stAxc ['k'] =
        { err := none, st := stAxc, contacted := false } ∧
      removeMany { optsNoPfx with DryRun := true } stAxc [['k'], ['j']] =
        ([], stAxc) ∧
      catcherResolve
        (removeMany { optsNoPfx with DryRun := true } stAxc [['k'], ['j']]).1 =
        none :=
  C6_dryrun_noop { optsNoPfx with DryRun := true } (fun c => c) stAxc ['k']
    ['v'] [['k'], ['j']] (by decide)

/-- Removal never changes the fault-injection set. -/
theorem remove_failRemove (b : GridFSOptions) (st : BackendState) (k : Str) :
    (remove b st k).st.failRemove = st.failRemove := by
  unfold remove
  split
  · rfl
  · split <;> rfl

/-- The removal error is nil exactly when the removal does not fail. -/
theorem remove_err_eq (b : GridFSOptions) (st : BackendState) (k : Str) :
    (remove b st k).err = none ↔ removeFails b st.failRemove k = false := by
  unfold remove removeFails
  split
  · rename_i hdry
    simp [hdry]
  · rename_i hdry
    have : b.DryRun = false := by
      cases h : b.DryRun
      · rfl
      · exact absurd h hdry
    split <;> rename_i hmem <;> simp [this, hmem]

/-- RemoveMany preserves the fault-injection set and accumulates exactly one
error per failed key. -/
theorem removeMany_counts (b : GridFSOptions) :
    ∀ (st : BackendState) (ks : List Str),
      (removeMany b st ks).2.failRemove = st.failRemove ∧
        (removeMany b st ks).1.length =
          (ks.filter (removeFails b st.failRemove)).length := by
  intro st ks
  induction ks generalizing st with
  | nil => simp [removeMany]
  | cons k ks ih =>
    have hpres := remove_failRemove b st k
    have ihx := ih (remove b st k).st
    rw [hpres] at ihx
    cases herr : (remove b st k).err with
    | none =>
      have hfail : removeFails b st.failRemove k = false :=
        (remove_err_eq b st k).mp herr
      refine ⟨?_, ?_⟩
      · show (removeMany b (remove b st k).st ks).2.failRemove = _
        exact ihx.1
      · show (removeMany b st (k :: ks)).1.length = _
        simp only [removeMany, herr, List.filter_cons, hfail]
        exact ihx.2
    | some e =>
      have hfail : removeFails b st.failRemove k = true := by
        cases h : removeFails b st.failRemove k
        · exact absurd ((remove_err_eq b st k).mpr h) (by simp [herr])
        · rfl
      refine ⟨?_, ?_⟩
      · show (removeMany b (remove b st k).st ks).2.failRemove = _
        exact ihx.1
      · show (removeMany b st (k :: ks)).1.length = _
        simp only [removeMany, herr, List.filter_cons, hfail]
        simp only [List.length_cons]
        exact congrArg (· + 1) ihx.2

/-- `gridfs.Remove` leaves no file under the removed name. -/
theorem gridfsRemoveAll_self (fs : List GridFile) (n : Str) :
    noFileNamed (gridfsRemoveAll fs n) n = true := by
  induction fs with
  | nil => simp [gridfsRemoveAll, noFileNamed]
  | cons f fs ih =>
    unfold gridfsRemoveAll
    split
    · exact ih
    · rename_i hne
      simp [noFileNamed, hne, ih]

/-- `gridfs.Remove` introduces no file under any name. -/
theorem gridfsRemoveAll_mono (fs : List GridFile) (m n : Str)
    (h : noFileNamed fs n = true) :
    noFileNamed (gridfsRemoveAll fs m) n = true := by
  induction fs with
  | nil => simpa [gridfsRemoveAll] using h
  | cons f fs ih =>
    simp only [noFileNamed, Bool.and_eq_true] at h
    unfold gridfsRemoveAll
    split
    · exact ih h.2
    · simp [noFileNamed, h.1, ih h.2]

/-- A single `Remove` call introduces no file under any name. -/
theorem remove_preserves_absence (b : GridFSOptions) (st : BackendState)
    (k n : Str) (h : noFileNamed st.files n = true) :
    noFileNamed (remove b st k).st.files n = true := by
  unfold remove
  split
  · exact h
  · split
    · exact h
    · exact gridfsRemoveAll_mono st.files (normalizeKey b k) n h

/-- `RemoveMany` introduces no file under any name. -/
theorem removeMany_preserves_absence (b : GridFSOptions) :
    ∀ (st : BackendState) (ks : List Str) (n : Str),
      noFileNamed st.files n = true →
        noFileNamed (removeMany b st ks).2.files n = true := by
  intro st ks
  induction ks generalizing st with
  | nil =>
    intro n h
    simpa [removeMany] using h
  | cons k ks ih =>
    intro n h
    show noFileNamed (removeMany b (remove b st k).st ks).2.files n = true
    exact ih (remove b st k).st n (remove_preserves_absence b st k n h)

/-- C7: RemoveMany attempts the removal of every key even when some fail:
the aggregate result is nil exactly when no key's removal failed, exactly one
error is accumulated per failed key, and any key whose removal succeeds in a
non-dry-run call is actually gone from the final backend state — the loop
never stops at the first failure. -/
theorem C7_removeMany_aggregate (b : GridFSOptions) (st : BackendState)
    (keys : List Str) (k : Str) (hk : k ∈ keys)
    (hok : removeFails b st.failRemove k = false) (hdry : b.DryRun = false) :
    (catcherResolve (removeMany b st keys).1 = none ↔
        keys.filter (removeFails b st.failRemove) = []) ∧
      (removeMany b st keys).1.length =
        (keys.filter (removeFails b st.failRemove)).length ∧
      noFileNamed (removeMany b st keys).2.files (normalizeKey b k) = true := by
  refine ⟨?_, (removeMany_counts b st keys).2, ?_⟩
  · constructor
    · intro hres
      have hempty : (removeMany b st keys).1 = [] := by
        by_cases hcase : (removeMany b st keys).1 = []
        · exact hcase
        · rw [catcherResolve, if_neg hcase] at hres
          exact absurd hres (by simp)
      have := (removeMany_counts b st keys).2
      rw [hempty] at this
      exact List.eq_nil_of_length_eq_zero this.symm
    · intro hfilter
      have := (removeMany_counts b st keys).2
      rw [hfilter] at this
      have hempty : (removeMany b st keys).1 = [] :=
        List.eq_nil_of_length_eq_zero (by simpa using this)
      rw [hempty]
      simp [catcherResolve]
  · induction keys generalizing st with
    | nil => exact absurd hk (by simp)
    | cons k2 ks ih =>
      show noFileNamed (removeMany b (remove b st k2).st ks).2.files _ = true
      rcases List.mem_cons.mp hk with heq | hmem
      · subst heq
        have hnm : ¬normalizeKey b k ∈ st.failRemove := by
          simp only [removeFails, hdry, Bool.not_false, Bool.true_and,
            decide_eq_false_iff_not] at hok
          exact hok
        have habs :
            noFileNamed (remove b st k).st.files (normalizeKey b k) = true := by
          unfold remove
          rw [if_neg (by simp [hdry]), if_neg hnm]
          exact gridfsRemoveAll_self st.files (normalizeKey b k)
        exact removeMany_preserves_absence b (remove b st k).st ks
          (normalizeKey b k) habs
      · have hpres := remove_failRemove b st k2
        exact ih (remove b st k2).st hmem (by rw [hpres] ; exact hok)

/-- A concrete backend state for the C7 witness: two stored objects and a
backend that faults the removal of the normalized name `"missing"`. -/
def stRM : BackendState :=
  { files := [{ name := ['a'], content := [], md5 := [] },
              { name := ['b'], content := [], md5 := [] }],
    failRemove := ["missing".data], iterFault := none }

/-- Witness for C7 at a concrete input: `RemoveMany ["a", "missing", "b"]`
where removing `"missing"` faults. -/
theorem C7_removeMany_aggregate_witness :
    (catcherResolve
          (removeMany optsNoPfx stRM [['a'], "missing".data, ['b']]).1 = none ↔
        ([['a'], "missing".data, ['b']] : List Str).filter
          (removeFails optsNoPfx stRM.failRemove) = []) ∧
      (removeMany optsNoPfx stRM [['a'], "missing".data, ['b']]).1.length =
        (([['a'], "missing".data, ['b']] : List Str).filter
          (removeFails optsNoPfx stRM.failRemove)).length ∧
      noFileNamed (removeMany optsNoPfx stRM [['a'], "missing".data, ['b']]).2.files
        (normalizeKey optsNoPfx ['a']) = true :=
  C7_removeMany_aggregate optsNoPfx stRM [['a'], "missing".data, ['b']] ['a']
    (by decide) (by decide) (by decide)

/-- A local file: readable with some content, or present but unreadable
(any I/O failure other than not-exist when checksumming it). -/
inductive LocalFile where
  | readable (content : Str)
  | unreadable (msg : Str)
  deriving DecidableEq

/-- The local file tree: an association of paths to local files; the most
recently written entry for a path wins. -/
abbrev LocalTree := List (Str × LocalFile)

/-- Look a path up in the local tree. -/
def localLookup : LocalTree → Str → Option LocalFile
  | [], _ => none
  | e :: t, p => if e.1 = p then some e.2 else localLookup t p

/-- `os.Create` semantics: writing a file replaces whatever was at the
path. -/
def localUpsert (t : LocalTree) (p : Str) (v : LocalFile) : LocalTree :=
  (p, v) :: t

/-- Failures of the local checksum utility: the distinguished not-exist
condition, or any other read error. -/
inductive Md5Err where
  | notExist
  | ioErr (msg : Str)
  deriving DecidableEq

/-- Modelled from the spec: `md5sum` (not under `src/`) computes a content
hash over the file's bytes; a missing file yields the distinguished
not-exist error and an unreadable one a generic read error.  The hash
function itself is abstracted as the parameter `hash`. -/
def md5sum (hash : Str → Str) (t : LocalTree) (p : Str) : Except Md5Err Str :=
  match localLookup t p with
  | none => .error .notExist
  | some (.unreadable m) => .error (.ioErr m)
  | some (.readable c) => .ok (hash c)

/-- The compiled exclude expression: `none` when `Exclude` was empty, and
an abstract matcher for the compiled regular expression otherwise. -/
def matchesOpt (re : Option (Str → Bool)) (s : Str) : Bool :=
  match re with
  | none => false
  | some r => r s

/-- `SyncOptions`: local root and remote prefix.  The `Exclude` pattern is
represented by the separately-passed compiled matcher. -/
structure SyncOptions where
  Local : Str
  Remote : Str
  deriving DecidableEq

/-- The transfer decision Push takes for one local path. -/
inductive PushAct where
  | excluded
  | uploadNew
  | uploadDiff
  | skipMatch
  deriving DecidableEq

/-- The per-file body of the Push loop (src lines 375-401): excluded paths
are skipped; when no object exists at the normalized target the file is
uploaded unconditionally (the upload fails if the local file cannot be
opened or read); when an object exists, the local checksum is computed
(failure aborts) and the file is uploaded exactly when the checksums
differ. -/
def pushFileAction (b : GridFSOptions) (hash : Str → Str)
    (re : Option (Str → Bool)) (sopts : SyncOptions) (tree : LocalTree)
    (files : List GridFile) (path : Str) : Except Str PushAct :=
  if matchesOpt re path then .ok .excluded
  else
    match gridfsOpen files (normalizeKey b (consistentJoin sopts.Remote path)) with
    | none =>
      match localLookup tree (consistentJoin sopts.Local path) with
      | some (.readable _) => .ok .uploadNew
      | _ => .error ("problem uploading".data)
    | some f =>
      match md5sum hash tree (consistentJoin sopts.Local path) with
      | .error _ => .error ("problem checksumming".data)
      | .ok localmd5 =>
        if f.md5 ≠ localmd5 then .ok .uploadDiff else .ok .skipMatch

/-- The backend effect of the action Push decided for one local path: an
upload writes the readable local content to the normalized target (a
discarded write under dry-run), anything else leaves the backend alone. -/
def pushApply (b : GridFSOptions) (hash : Str → Str) (sopts : SyncOptions)
    (tree : LocalTree) (files : List GridFile) (path : Str) (a : PushAct) :
    List GridFile :=
  if a = PushAct.uploadNew ∨ a = PushAct.uploadDiff then
    match localLookup tree (consistentJoin sopts.Local path) with
    | some (.readable c) =>
      if b.DryRun then files
      else gridfsCreate files (normalizeKey b (consistentJoin sopts.Remote path)) c hash
    | _ => files
  else files

/-- The Push transfer loop over the enumerated local paths: the first
failure aborts the whole Push. -/
def pushLoop (b : GridFSOptions) (hash : Str → Str) (re : Option (Str → Bool))
    (sopts : SyncOptions) (tree : LocalTree) :
    List GridFile → List Str → Except Str (List GridFile)
  | files, [] => .ok files
  | files, p :: ps =>
    match pushFileAction b hash re sopts tree files p with
    | .error e => .error e
    | .ok a => pushLoop b hash re sopts tree (pushApply b hash sopts tree files p a) ps

/-- Modelled from the spec: delete-on-push prunes every remote object under
the remote prefix whose corresponding local relative path does not exist
locally. -/
def deleteOnPushModel (b : GridFSOptions) (sopts : SyncOptions)
    (localPaths : List Str) (files : List GridFile) : List GridFile :=
  files.filter fun f =>
    !reMatchesPfx (normalizeKey b sopts.Remote) f.name ||
      decide (denormalizeKey b f.name ∈
        localPaths.map (fun p => consistentJoin sopts.Remote p))

/-- `gridfsLegacyBucket.Push` (src lines 348-407) over the model state:
run the transfer loop over the enumerated local paths, then prune the
remote side when delete-on-push (or delete-on-sync) is enabled and dry-run
is not. -/
def push (b : GridFSOptions) (hash : Str → Str) (re : Option (Str → Bool))
    (sopts : SyncOptions) (localPaths : List Str) (tree : LocalTree)
    (st : BackendState) : Except Str (List GridFile) :=
  match pushLoop b hash re sopts tree st.files localPaths with
  | .error e => .error e
  | .ok files =>
    if (b.DeleteOnPush || b.DeleteOnSync) && !b.DryRun then
      .ok (deleteOnPushModel b sopts localPaths files)
    else .ok files

/-- C3: Push's per-file transfer decision: a non-excluded local path with no
object at the normalized target is uploaded unconditionally; when an object
exists, it is uploaded exactly when the backend checksum differs from the
local one, and skipped when they match; an empty backend checksum (against a
non-empty local checksum) counts as a mismatch and forces the upload. -/
theorem C3_push_transfer_decision (b : GridFSOptions) (hash : Str → Str)
    (re : Option (Str → Bool)) (sopts : SyncOptions) (tree : LocalTree)
    (files1 files2 : List GridFile) (path c : Str) (f : GridFile)
    (hex : matchesOpt re path = false)
    (hread : localLookup tree (consistentJoin sopts.Local path) =
      some (.readable c))
    (h1 : gridfsOpen files1 (normalizeKey b (consistentJoin sopts.Remote path)) =
      none)
    (h2 : gridfsOpen files2 (normalizeKey b (consistentJoin sopts.Remote path)) =
      some f) :
    pushFileAction b hash re sopts tree files1 path = .ok .uploadNew ∧
      pushFileAction b hash re sopts tree files2 path =
        .ok (if f.md5 = hash c then .skipMatch else .uploadDiff) ∧
      (f.md5 = [] → hash c ≠ [] →
        pushFileAction b hash re sopts tree files2 path = .ok .uploadDiff) := by
  have hmd5 : md5sum hash tree (consistentJoin sopts.Local path) =
      .ok (hash c) := by
    simp [md5sum, hread]
  refine ⟨?_, ?_, ?_⟩
  · simp [pushFileAction, hex, h1, hread]
  · rw [pushFileAction, if_neg (by simp [hex]), h2, hmd5]
    by_cases he : f.md5 = hash c <;> simp [he]
  · intro hempty hnz
    rw [pushFileAction, if_neg (by simp [hex]), h2, hmd5]
    simp only [hempty]
    rw [if_pos (by exact fun hcon => hnz hcon.symm)]

/-- Concrete sync options for the Push/Pull witnesses. -/
def soptsW : SyncOptions := { Local := ['l'], Remote := ['r'] }

/-- Concrete local tree for the Push witness: one readable file at
`"l/p"`. -/
def treeW : LocalTree := [(consistentJoin ['l'] ['p'], .readable ['v'])]

/-- Concrete stored object at `"r/p"` with a stale checksum, for the Push
witness. -/
def fileW : GridFile :=
  { name := consistentJoin ['r'] ['p'], content := [], md5 := ['z'] }

/-- Witness for C3 at a concrete input. -/
theorem C3_push_transfer_decision_witness :
    pushFileAction optsNoPfx (fun s => 'h' :: s) none soptsW treeW [] ['p'] =
        .ok .uploadNew ∧
      pushFileAction optsNoPfx (fun s => 'h' :: s) none soptsW treeW [fileW]
          ['p'] =
        .ok
          (if fileW.md5 = (fun (s : Str) => 'h' :: s) ['v'] then .skipMatch
            else .uploadDiff) ∧
      (fileW.md5 = [] → (fun (s : Str) => 'h' :: s) ['v'] ≠ [] →
        pushFileAction optsNoPfx (fun s => 'h' :: s) none soptsW treeW [fileW]
            ['p'] =
          .ok .uploadDiff) :=
  C3_push_transfer_decision optsNoPfx (fun s => 'h' :: s) none soptsW treeW
    [] [fileW] ['p'] ['v'] fileW (by decide) (by decide) (by decide) (by decide)

/-- Failures that abort a Pull: the canceled-context check of `List`, the
out-of-range slice (a Go panic), a non-not-exist checksum error, a download
failure, or a backend iteration fault reported after the loop. -/
inductive PullErr where
  | listCanceled
  | panicSlice
  | checksumErr (msg : Str)
  | downloadErr (msg : Str)
  | iterErr (msg : Str)
  deriving DecidableEq

/-- `gridfsLegacyBucket.Download` (src lines 316-346) as Pull uses it: open
a reader on the given (denormalized) key — which normalizes it again — and
write the object's content over the local target path. -/
def download (b : GridFSOptions) (files : List GridFile) (tree : LocalTree)
    (key target : Str) : Except PullErr LocalTree :=
  match gridfsOpen files (normalizeKey b key) with
  | none => .error (.downloadErr ("could not open".data))
  | some g => .ok (localUpsert tree target (.readable g.content))

/-- The tail of the Pull loop body once the relative path `fn` has been
sliced out of the denormalized name (src lines 450-468): record `fn` in the
pulled set; checksum the local file — not-exist means download
unconditionally, any other failure aborts; otherwise download exactly when
the checksums differ. -/
def pullTransfer (b : GridFSOptions) (hash : Str → Str) (sopts : SyncOptions)
    (files : List GridFile) (acc : LocalTree × List Str) (f : GridFile)
    (fn : Str) : Except PullErr (LocalTree × List Str) :=
  match md5sum hash acc.1 (consistentJoin sopts.Local fn) with
  | .error .notExist =>
    match download b files acc.1 (denormalizeKey b f.name)
        (consistentJoin sopts.Local fn) with
    | .error e => .error e
    | .ok t => .ok (t, acc.2 ++ [fn])
  | .error (.ioErr m) => .error (.checksumErr m)
  | .ok checksum =>
    if f.md5 ≠ checksum then
      match download b files acc.1 (denormalizeKey b f.name)
          (consistentJoin sopts.Local fn) with
      | .error e => .error e
      | .ok t => .ok (t, acc.2 ++ [fn])
    else .ok (acc.1, acc.2 ++ [fn])

/-- The per-object body of the Pull loop (src lines 443-469): skip objects
whose backend name matches the exclude pattern; denormalize the name and
take the Go slice `denormalizedName[len(Remote)+1:]` (a panic when out of
range); then transfer as `pullTransfer` describes. -/
def pullStep (b : GridFSOptions) (hash : Str → Str) (re : Option (Str → Bool))
    (sopts : SyncOptions) (files : List GridFile) (acc : LocalTree × List Str)
    (f : GridFile) : Except PullErr (LocalTree × List Str) :=
  if matchesOpt re f.name then .ok acc
  else
    match goDropFrom? (denormalizeKey b f.name) (sopts.Remote.length + 1) with
    | none => .error .panicSlice
    | some fn => pullTransfer b hash sopts files acc f fn

/-- The Pull loop over the objects the `List` query matched: the first
failure aborts the whole Pull. -/
def pullLoop (b : GridFSOptions) (hash : Str → Str) (re : Option (Str → Bool))
    (sopts : SyncOptions) (files : List GridFile) :
    LocalTree × List Str → List GridFile → Except PullErr (LocalTree × List Str)
  | acc, [] => .ok acc
  | acc, f :: fs =>
    match pullStep b hash re sopts files acc f with
    | .error e => .error e
    | .ok acc2 => pullLoop b hash re sopts files acc2 fs

/-- Modelled from the spec: delete-on-pull prunes every local file under the
local root whose relative path is not in the pulled set. -/
def deleteOnPullModel (tree : LocalTree) (keys : List Str) (localRoot : Str) :
    LocalTree :=
  tree.filter fun e =>
    !localRoot.isPrefixOf e.1 ||
      decide (e.1 ∈ keys.map (fun k => consistentJoin localRoot k))

/-- `gridfsLegacyBucket.Pull` (src lines 409-479) over the model state:
`List` fails first on a canceled context; the loop handles the matched
objects in order; the cursor's fault is checked after the loop; finally the
local side is pruned when delete-on-pull (or delete-on-sync) is enabled and
dry-run is not. -/
def pull (b : GridFSOptions) (hash : Str → Str) (re : Option (Str → Bool))
    (ctxCanceled : Bool) (sopts : SyncOptions) (st : BackendState)
    (tree : LocalTree) : Except PullErr (LocalTree × List Str) :=
  if ctxCanceled then .error .listCanceled
  else
    match pullLoop b hash re sopts st.files (tree, [])
        (queryFiles b st.files sopts.Remote) with
    | .error e => .error e
    | .ok res =>
      match st.iterFault with
      | some e => .error (.iterErr e)
      | none =>
        if (b.DeleteOnPull || b.DeleteOnSync) && !b.DryRun then
          .ok (deleteOnPullModel res.1 res.2 sopts.Local, res.2)
        else .ok res

/-- C8: Pull's absent-file fast path: a listed, non-excluded object whose
local file does not exist is downloaded unconditionally and the missing
local file is not treated as an error; a checksum failure other than
not-exist (an unreadable local file) aborts the step and hence the whole
Pull. -/
theorem C8_pull_absent_file (b : GridFSOptions) (hash : Str → Str)
    (re : Option (Str → Bool)) (sopts : SyncOptions) (files : List GridFile)
    (tree tree2 : LocalTree) (ks : List Str) (f g : GridFile) (fn m : Str)
    (hex : matchesOpt re f.name = false)
    (hfn : goDropFrom? (denormalizeKey b f.name) (sopts.Remote.length + 1) =
      some fn)
    (habs : localLookup tree (consistentJoin sopts.Local fn) = none)
    (hobj : gridfsOpen files (normalizeKey b (denormalizeKey b f.name)) =
      some g)
    (hbad : localLookup tree2 (consistentJoin sopts.Local fn) =
      some (.unreadable m)) :
    pullStep b hash re sopts files (tree, ks) f =
        .ok (localUpsert tree (consistentJoin sopts.Local fn)
          (.readable g.content), ks ++ [fn]) ∧
      pullStep b hash re sopts files (tree2, ks) f =
        .error (.checksumErr m) := by
  constructor
  · rw [pullStep, if_neg (by simp [hex]), hfn]
    show pullTransfer b hash sopts files (tree, ks) f fn = _
    have hmd : md5sum hash (tree, ks).1 (consistentJoin sopts.Local fn) =
        .error .notExist := by
      simp [md5sum, habs]
    unfold pullTransfer
    rw [hmd]
    simp [download, hobj]
  · rw [pullStep, if_neg (by simp [hex]), hfn]
    show pullTransfer b hash sopts files (tree2, ks) f fn = _
    have hmd : md5sum hash (tree2, ks).1 (consistentJoin sopts.Local fn) =
        .error (.ioErr m) := by
      simp [md5sum, hbad]
    unfold pullTransfer
    rw [hmd]

/-- The Pull object for the C8 witness: its backend name is `"r/q"`. -/
def fileP : GridFile :=
  { name := consistentJoin ['r'] ['q'], content := ['w'], md5 := [] }

/-- Witness for C8 at a concrete input. -/
theorem C8_pull_absent_file_witness :
    pullStep optsNoPfx (fun s => 'h' :: s) none soptsW [fileP] ([], []) fileP =
        .ok (localUpsert [] (consistentJoin soptsW.Local ['q'])
          (.readable fileP.content), [] ++ [['q']]) ∧
      pullStep optsNoPfx (fun s => 'h' :: s) none soptsW [fileP]
          ([(consistentJoin soptsW.Local ['q'], .unreadable ['e'])], []) fileP =
        .error (.checksumErr ['e']) :=
  C8_pull_absent_file optsNoPfx (fun s => 'h' :: s) none soptsW [fileP] []
    [(consistentJoin soptsW.Local ['q'], .unreadable ['e'])] [] fileP fileP
    ['q'] ['e'] (by decide) (by decide) (by decide) (by decide) (by decide)

/-- Every matched object is either excluded or has a denormalized name long
enough for the Go slice Pull takes to be in range. -/
def pullSafeNames (b : GridFSOptions) (re : Option (Str → Bool))
    (remote : Str) : List GridFile → Bool
  | [] => true
  | f :: fs =>
    (matchesOpt re f.name ||
        decide (remote.length + 1 ≤ (denormalizeKey b f.name).length)) &&
      pullSafeNames b re remote fs

/-- `download` never reports the slice panic. -/
theorem download_no_panic (b : GridFSOptions) (files : List GridFile)
    (tree : LocalTree) (key target : Str) :
    download b files tree key target ≠ .error .panicSlice := by
  unfold download
  split <;> simp

/-- `pullTransfer` never fails with the slice panic. -/
theorem pullTransfer_no_panic (b : GridFSOptions) (hash : Str → Str)
    (sopts : SyncOptions) (files : List GridFile)
    (acc : LocalTree × List Str) (f : GridFile) (fn : Str) :
    pullTransfer b hash sopts files acc f fn ≠ .error .panicSlice := by
  unfold pullTransfer
  split
  · split
    · rename_i e hdl
      intro hcon
      have he : e = PullErr.panicSlice := by injection hcon
      rw [he] at hdl
      exact download_no_panic b files acc.1 (denormalizeKey b f.name)
        (consistentJoin sopts.Local fn) hdl
    · simp
  · simp
  · split
    · split
      · rename_i e hdl
        intro hcon
        have he : e = PullErr.panicSlice := by injection hcon
        rw [he] at hdl
        exact download_no_panic b files acc.1 (denormalizeKey b f.name)
          (consistentJoin sopts.Local fn) hdl
      · simp
    · simp

/-- A safe object's `pullStep` never fails with the slice panic. -/
theorem pullStep_no_panic (b : GridFSOptions) (hash : Str → Str)
    (re : Option (Str → Bool)) (sopts : SyncOptions) (files : List GridFile)
    (acc : LocalTree × List Str) (f : GridFile)
    (hsafe : (matchesOpt re f.name ||
      decide (sopts.Remote.length + 1 ≤ (denormalizeKey b f.name).length)) =
        true) :
    pullStep b hash re sopts files acc f ≠ .error .panicSlice := by
  unfold pullStep
  cases hex : matchesOpt re f.name with
  | true => simp
  | false =>
    rw [hex] at hsafe
    simp only [Bool.false_or, decide_eq_true_eq] at hsafe
    rw [if_neg (by simp)]
    have hgd : goDropFrom? (denormalizeKey b f.name) (sopts.Remote.length + 1) =
        some ((denormalizeKey b f.name).drop (sopts.Remote.length + 1)) := by
      rw [goDropFrom?, if_pos hsafe]
    rw [hgd]
    exact pullTransfer_no_panic b hash sopts files acc f
      ((denormalizeKey b f.name).drop (sopts.Remote.length + 1))

/-- The Pull loop over safe objects never fails with the slice panic. -/
theorem pullLoop_no_panic (b : GridFSOptions) (hash : Str → Str)
    (re : Option (Str → Bool)) (sopts : SyncOptions) (files : List GridFile) :
    ∀ (fs : List GridFile) (acc : LocalTree × List Str),
      pullSafeNames b re sopts.Remote fs = true →
        pullLoop b hash re sopts files acc fs ≠ .error .panicSlice := by
  intro fs
  induction fs with
  | nil => simp [pullLoop]
  | cons f fs ih =>
    intro acc hsafe
    simp only [pullSafeNames, Bool.and_eq_true] at hsafe
    show pullLoop b hash re sopts files acc (f :: fs) ≠ .error .panicSlice
    rw [pullLoop]
    cases hstep : pullStep b hash re sopts files acc f with
    | error e =>
      intro hcon
      have : e = PullErr.panicSlice := by injection hcon
      rw [this] at hstep
      exact pullStep_no_panic b hash re sopts files acc f hsafe.1 hstep
    | ok acc2 => exact ih acc2 hsafe.2

/-- C10: Pull never reaches the out-of-range slice — the panic branch of
`denormalizedName[len(opts.Remote)+1:]` is unreachable — under the
precondition that every listed, non-excluded object's denormalized name is
at least `len(opts.Remote)+1` characters long. -/
theorem C10_pull_slice_safe (b : GridFSOptions) (hash : Str → Str)
    (re : Option (Str → Bool)) (ctxCanceled : Bool) (sopts : SyncOptions)
    (st : BackendState) (tree : LocalTree)
    (hsafe : pullSafeNames b re sopts.Remote
      (queryFiles b st.files sopts.Remote) = true) :
    pull b hash re ctxCanceled sopts st tree ≠ .error .panicSlice := by
  unfold pull
  split
  · simp
  · intro hcon
    cases hloop : pullLoop b hash re sopts st.files (tree, [])
        (queryFiles b st.files sopts.Remote) with
    | error e =>
      rw [hloop] at hcon
      simp only [Except.error.injEq] at hcon
      rw [hcon] at hloop
      exact pullLoop_no_panic b hash re sopts st.files
        (queryFiles b st.files sopts.Remote) (tree, []) hsafe hloop
    | ok res =>
      rw [hloop] at hcon
      cases hfault : st.iterFault with
      | some e2 =>
        rw [hfault] at hcon
        simp at hcon
      | none =>
        rw [hfault] at hcon
        simp only [] at hcon
        split at hcon <;> simp at hcon

/-- A backend state for the C10 witness: the query for the remote prefix
`"r"` matches the stored object `"r/q"`, whose denormalized name is long
enough for the slice, so the Pull loop actually reaches the guarded
slicing. -/
def stPull : BackendState :=
  { files := [fileP], failRemove := [], iterFault := none }

/-- Witness for C10 at a concrete input on which the Pull loop processes a
matched object and takes the slice: the precondition holds non-vacuously
and the panic branch is not reached. -/
theorem C10_pull_slice_safe_witness :
    pull optsNoPfx (fun s => 'h' :: s) none false soptsW stPull [] ≠
      .error .panicSlice :=
  C10_pull_slice_safe optsNoPfx (fun s => 'h' :: s) none false soptsW stPull []
    (by decide)

end Pail
